import Mathlib

/-!
Verification development for the Minetest PostgreSQL map backend
(`src/database-postgresql.cpp`) and the binary buffer primitives
(`src/util/pointer.h`).

The database backend is shallowly embedded as a pure state machine over
the logical contents of the `blocks` table: a list of rows, each a
`(x, y, z)` key paired with its `BYTEA` payload.  Coordinates are
16-bit signed integers in the C++ code and are marshalled through
`itos`/`atoi` (decimal text), which is injective and a round trip on
that range, so rows store the coordinate triple directly as integers.
Payloads are passed with explicit lengths in binary format
(`paramFormats[3] = 1`, result format `1`, `PQgetlength`), so they are
modelled as raw byte lists, embedded zero bytes included.

Buffer / SharedBuffer are embedded at byte granularity: an element type
`T` with `sizeof(T) = w` occupies `w` consecutive bytes, a byte fresh
from `new T[n]` is indeterminate (`none`), a written byte is `some b`.
This byte-level view is what the source's `memcpy`/`memset` calls act
on, and is needed because two of those calls pass an element count
where a byte count is expected.
-/

namespace MinetestPG

/-- A block position: the `(x, y, z)` coordinate triple (`v3s16` in the
source; `s16` components, held as integers here). -/
abbrev Key := Int × Int × Int

/-- A block payload: the `BYTEA` column contents, an arbitrary byte list. -/
abbrev Blob := List Nat

/-- A row of the `blocks` table: key plus payload. -/
abbrev Row := Key × Blob

/-- Logical contents of the `blocks` table. -/
abbrev DB := List Row

/-- The `WHERE "x" = $1 AND "y" = $2 AND "z" = $3` predicate shared by the
prepared `load`, `save` (UPDATE arm) and `delete` statements. -/
def keyMatch (k : Key) (r : Row) : Bool := decide (r.1 = k)

/-- Source `Database_PostgreSQL::saveBlock`: executes the prepared `save`
statement
`WITH upsert AS (UPDATE "blocks" SET "data"=$4 WHERE x=$1 AND y=$2 AND z=$3 RETURNING *)
 INSERT INTO "blocks" (x,y,z,data) SELECT $1,$2,$3,$4 WHERE NOT EXISTS (SELECT * FROM upsert)`:
the UPDATE arm rewrites the payload of every row matching the key; the
INSERT arm appends a fresh row exactly when the UPDATE arm returned no
rows. -/
def saveBlock (db : DB) (k : Key) (d : Blob) : DB :=
  let updated := db.map (fun r => if keyMatch k r then (r.1, d) else r)
  if db.any (keyMatch k) then updated else db ++ [(k, d)]

/-- Source `Database_PostgreSQL::loadBlock`: executes the prepared `load`
statement (`SELECT "data" FROM "blocks" WHERE x=$1 AND y=$2 AND z=$3`,
binary result format).  `data` starts as the empty string and is
assigned from row 0 only when `PQntuples(res) != 0`; with no matching
row the empty string is returned unchanged. -/
def loadBlock (db : DB) (k : Key) : Blob :=
  match db.find? (keyMatch k) with
  | some r => r.2
  | none => []

/-- Source `Database_PostgreSQL::deleteBlock`: executes the prepared `delete`
statement (`DELETE FROM "blocks" WHERE x=$1 AND y=$2 AND z=$3`). -/
def deleteBlock (db : DB) (k : Key) : DB :=
  db.filter (fun r => !keyMatch k r)

/-- Source `Database_PostgreSQL::listAllLoadableBlocks`: executes the prepared
`list` statement (`SELECT "x", "y", "z" FROM "blocks"`) and pushes each
row's coordinates (decimal text, parsed back with `atoi`, a round trip
on `s16`) into the destination vector. -/
def listAllLoadableBlocks (db : DB) : List Key :=
  db.map Prod.fst

/-- The `PRIMARY KEY ("x", "y", "z")` constraint of the `blocks` table:
no key appears on two rows. -/
abbrev NodupKeys (db : DB) : Prop :=
  (db.map Prod.fst).Nodup

/-- The function `saveBlock` folded over a list of key/payload pairs, starting from
an empty table. -/
def saveAll (rows : List Row) : DB :=
  rows.foldl (fun db r => saveBlock db r.1 r.2) []

theorem keyMatch_self (k : Key) (d : Blob) : keyMatch k (k, d) = true := by
  simp [keyMatch]

/-- Shared helper: a save followed by a load of the same key returns the
payload just saved. -/
theorem load_save (db : DB) (k : Key) (d : Blob) :
    loadBlock (saveBlock db k d) k = d := by
  induction db with
  | nil => simp [saveBlock, loadBlock, List.find?, keyMatch_self]
  | cons r rs ih =>
    by_cases hr : keyMatch k r = true
    · have hk : r.1 = k := by simpa [keyMatch] using hr
      simp [saveBlock, loadBlock, List.any_cons, hr, List.find?, keyMatch, hk]
    · by_cases hrs : rs.any (keyMatch k) = true
      · have ih2 : loadBlock (rs.map
            (fun r => if keyMatch k r then (r.1, d) else r)) k = d := by
          simpa [saveBlock, hrs] using ih
        simpa [saveBlock, loadBlock, List.any_cons, hr, hrs, List.find?] using ih2
      · have ih2 : loadBlock (rs ++ [(k, d)]) k = d := by
          simpa [saveBlock, hrs] using ih
        simpa [saveBlock, loadBlock, List.any_cons, hr, hrs, List.find?] using ih2

theorem any_keyMatch_iff (db : DB) (k : Key) :
    db.any (keyMatch k) = true ↔ k ∈ db.map Prod.fst := by
  simp [List.any_eq_true, keyMatch, List.mem_map]

theorem map_fst_upd (db : DB) (k : Key) (d : Blob) :
    (db.map (fun r => if keyMatch k r then (r.1, d) else r)).map Prod.fst
      = db.map Prod.fst := by
  induction db with
  | nil => rfl
  | cons r rs ih =>
    by_cases hr : keyMatch k r = true <;> simp [hr, ih]

theorem listAll_save (db : DB) (k : Key) (d : Blob) :
    listAllLoadableBlocks (saveBlock db k d) =
      if db.any (keyMatch k) then listAllLoadableBlocks db
      else listAllLoadableBlocks db ++ [k] := by
  by_cases h : db.any (keyMatch k) = true
  · simp only [saveBlock, listAllLoadableBlocks, h, if_true]
    exact map_fst_upd db k d
  · simp [saveBlock, listAllLoadableBlocks, h]

theorem nodupKeys_save (db : DB) (k : Key) (d : Blob) (h : NodupKeys db) :
    NodupKeys (saveBlock db k d) := by
  have := listAll_save db k d
  simp only [listAllLoadableBlocks] at this
  rw [NodupKeys, this]
  by_cases hm : db.any (keyMatch k) = true
  · simpa [hm] using h
  · have hk : k ∉ db.map Prod.fst := by
      rw [← any_keyMatch_iff]; simpa using hm
    simp [hm, List.nodup_append, h, hk]

theorem mem_keys_save (db : DB) (k : Key) (d : Blob) :
    k ∈ listAllLoadableBlocks (saveBlock db k d) := by
  rw [listAll_save]
  by_cases hm : db.any (keyMatch k) = true
  · rw [if_pos hm]
    have := (any_keyMatch_iff db k).mp hm
    simpa [listAllLoadableBlocks] using this
  · simp [hm]

theorem count_one_of_nodup_mem (l : List Key) (k : Key)
    (hn : l.Nodup) (hm : k ∈ l) : l.count k = 1 := by
  induction l with
  | nil => cases hm
  | cons a t ih =>
    rw [List.count_cons]
    rcases List.mem_cons.mp hm with rfl | hmt
    · have hnt : k ∉ t := (List.nodup_cons.mp hn).1
      rw [List.count_eq_zero.mpr hnt]
      simp
    · have ha : a ≠ k := by
        rintro rfl; exact (List.nodup_cons.mp hn).1 hmt
      have ht := ih (List.nodup_cons.mp hn).2 hmt
      simpa [ht] using ha

theorem count_keys_save (db : DB) (k : Key) (d : Blob) (h : NodupKeys db) :
    (listAllLoadableBlocks (saveBlock db k d)).count k = 1 :=
  count_one_of_nodup_mem _ k (nodupKeys_save db k d h) (mem_keys_save db k d)

theorem load_delete (db : DB) (k : Key) :
    loadBlock (deleteBlock db k) k = [] := by
  have : (deleteBlock db k).find? (keyMatch k) = none := by
    rw [List.find?_eq_none]
    intro r hr
    have := (List.mem_filter.mp hr).2
    simp only [Bool.not_eq_true'] at this
    simp [this]
  simp [loadBlock, this]

theorem save_of_not_mem (db : DB) (k : Key) (d : Blob)
    (h : ¬ db.any (keyMatch k) = true) :
    saveBlock db k d = db ++ [(k, d)] := by
  simp [saveBlock, h]

theorem saveAll_go (rows : List Row) (db : DB)
    (h : (db.map Prod.fst ++ rows.map Prod.fst).Nodup) :
    listAllLoadableBlocks (rows.foldl (fun db r => saveBlock db r.1 r.2) db) =
      listAllLoadableBlocks db ++ rows.map Prod.fst := by
  induction rows generalizing db with
  | nil => simp [listAllLoadableBlocks]
  | cons r rs ih =>
    have hnotmem : r.1 ∉ db.map Prod.fst := by
      intro hmem
      rcases List.nodup_append.mp h with ⟨-, -, hdisj⟩
      exact hdisj hmem (by simp)
    have hnot : ¬ db.any (keyMatch r.1) = true := by
      rw [any_keyMatch_iff]; exact hnotmem
    have hstep : saveBlock db r.1 r.2 = db ++ [(r.1, r.2)] :=
      save_of_not_mem db r.1 r.2 hnot
    have hperm :
        ((db ++ [(r.1, r.2)]).map Prod.fst ++ rs.map Prod.fst)
          = db.map Prod.fst ++ (r :: rs).map Prod.fst := by
      simp
    have hih := ih (db ++ [(r.1, r.2)]) (by rw [hperm]; exact h)
    rw [List.foldl_cons, hstep, hih]
    simp [listAllLoadableBlocks]

/-- C2: for every table state, key `k` and byte sequence `d` (embedded
zero bytes included: the payload is bound as a binary parameter with an
explicit length and read back with `PQgetlength` in binary result
format), `saveBlock` then `loadBlock` on the same key returns exactly
`d`. -/
theorem saveBlock_loadBlock_roundtrip (db : DB) (k : Key) (d : Blob) :
    loadBlock (saveBlock db k d) k = d :=
  load_save db k d

/-- C1 counterexample: `loadBlock` after `save(k, d); delete(k)` returns
the empty byte sequence — the very same observable value it returns for
a key stored with an empty payload — so the not-found result is not
distinguishable from a stored empty payload. -/
theorem loadBlock_notfound_indistinguishable :
    loadBlock (deleteBlock (saveBlock [] ((1 : Int), (2 : Int), (3 : Int))
        [0, 1, 2]) (1, 2, 3)) (1, 2, 3) =
      loadBlock (saveBlock [] ((1 : Int), (2 : Int), (3 : Int)) []) (1, 2, 3) ∧
    loadBlock (saveBlock [] ((1 : Int), (2 : Int), (3 : Int)) []) (1, 2, 3) = [] := by
  constructor <;> rfl

/-- C1 (amended): `loadBlock` returns the stored payload bytes
bit-exactly when a record exists, and returns the empty byte sequence
when no record exists; the two cases are conflated — after
`save(k, d); delete(k)`, `load(k)` returns the empty sequence, the same
value as for a present-but-empty payload. -/
theorem loadBlock_absent_empty (db : DB) (k : Key) (d : Blob) :
    loadBlock (deleteBlock (saveBlock db k d) k) k = [] ∧
    loadBlock (saveBlock db k []) k = [] :=
  ⟨load_delete (saveBlock db k d) k, load_save db k []⟩

/-- C6: the prepared `save` statement is an upsert with last-write-wins
semantics: on a table honouring the primary-key constraint, after
`save(k, d1)` then `save(k, d2)`, `load(k)` returns `d2`, the key `k`
appears exactly once in the key enumeration, and the primary-key
uniqueness is preserved (no duplicate row is ever created). -/
theorem saveBlock_upsert_last_write_wins (db : DB) (k : Key) (d1 d2 : Blob)
    (h : NodupKeys db) :
    loadBlock (saveBlock (saveBlock db k d1) k d2) k = d2 ∧
    (listAllLoadableBlocks (saveBlock (saveBlock db k d1) k d2)).count k = 1 ∧
    NodupKeys (saveBlock (saveBlock db k d1) k d2) :=
  ⟨load_save (saveBlock db k d1) k d2,
   count_keys_save (saveBlock db k d1) k d2 (nodupKeys_save db k d1 h),
   nodupKeys_save (saveBlock db k d1) k d2 (nodupKeys_save db k d1 h)⟩

theorem saveBlock_upsert_last_write_wins_witness :
    NodupKeys ([] : DB) ∧
    (loadBlock (saveBlock (saveBlock [] ((1 : Int), (2 : Int), (3 : Int)) [7])
        (1, 2, 3) [0, 9]) (1, 2, 3) = [0, 9] ∧
      (listAllLoadableBlocks (saveBlock (saveBlock [] ((1 : Int), (2 : Int), (3 : Int)) [7])
        (1, 2, 3) [0, 9])).count (1, 2, 3) = 1 ∧
      NodupKeys (saveBlock (saveBlock [] ((1 : Int), (2 : Int), (3 : Int)) [7])
        (1, 2, 3) [0, 9])) :=
  ⟨by decide, saveBlock_upsert_last_write_wins [] (1, 2, 3) [7] [0, 9] (by decide)⟩

/-- C7: saving any number of rows with pairwise-distinct keys into an
empty table makes `listAllLoadableBlocks` return exactly those keys,
each exactly once (the returned enumeration equals the saved key list
and is duplicate-free); order beyond that is an artefact of the
unordered `SELECT`. -/
theorem listAll_saveAll_exact (rows : List Row)
    (h : (rows.map Prod.fst).Nodup) :
    listAllLoadableBlocks (saveAll rows) = rows.map Prod.fst ∧
    (listAllLoadableBlocks (saveAll rows)).Nodup := by
  have hgo := saveAll_go rows [] (by simpa using h)
  have heq : listAllLoadableBlocks (saveAll rows) = rows.map Prod.fst := by
    simpa [saveAll, listAllLoadableBlocks] using hgo
  exact ⟨heq, heq ▸ h⟩

theorem listAll_saveAll_exact_witness :
    ((([((1 : Int), (2 : Int), (3 : Int)), ((4 : Int), (5 : Int), (6 : Int))].zip
        [[(0 : Nat)], [1]]).map Prod.fst).Nodup) ∧
    (listAllLoadableBlocks (saveAll ([((1 : Int), (2 : Int), (3 : Int)),
        ((4 : Int), (5 : Int), (6 : Int))].zip [[(0 : Nat)], [1]])) =
      ([((1 : Int), (2 : Int), (3 : Int)), ((4 : Int), (5 : Int), (6 : Int))].zip
        [[(0 : Nat)], [1]]).map Prod.fst ∧
      (listAllLoadableBlocks (saveAll ([((1 : Int), (2 : Int), (3 : Int)),
        ((4 : Int), (5 : Int), (6 : Int))].zip [[(0 : Nat)], [1]]))).Nodup) :=
  ⟨by decide, listAll_saveAll_exact _ (by decide)⟩

/-- Outcome of `PQstatus` on the connection object returned by
`PQconnectdb` (libpq returns a handle that must be `PQfinish`ed even
when the connection attempt failed). -/
inductive ConnStatus
  | ok
  | bad
deriving DecidableEq

/-- The environment a `Database_PostgreSQL` lifetime runs against. -/
structure OpenConfig where
  /-- Whether `postgresql_connection_info` is present in the settings
  (`conf.get` throws `SettingNotFoundException` before `PQconnectdb`
  runs when it is absent). -/
  hasConnInfo : Bool
  /-- Result of `PQstatus(conn)` after `PQconnectdb`. -/
  status : ConnStatus
  /-- the `CREATE TABLE IF NOT EXISTS` `PQexec` returns
  `PGRES_COMMAND_OK`. -/
  schemaOK : Bool
  /-- every `PQprepare` of the six statements returns
  `PGRES_COMMAND_OK`. -/
  prepareOK : Bool
  /-- for each later backend operation, whether its `PG_RES` check
  throws `FileNotGoodException`. -/
  opFailures : List Bool
deriving DecidableEq

/-- Resource accounting over one backend lifetime. -/
structure LifecycleResult where
  /-- Number of `PQconnectdb` calls that returned a connection handle. -/
  connectCalls : Nat
  /-- Number of `PQfinish` calls. -/
  finishCalls : Nat
  /-- the constructor returned normally, so the object exists and its
  destructor will run. -/
  constructed : Bool
deriving DecidableEq

/-- The `Database_PostgreSQL` lifetime as C++ executes it: `conf.get`
throws before `PQconnectdb` when the setting is absent (no handle); a
throw inside the constructor body (bad `PQstatus`, failed
`CREATE TABLE`, failed `PQprepare`) propagates out of the constructor,
so the destructor — the only place `PQfinish(conn)` appears — never
runs for that already-allocated handle; once construction succeeds the
destructor runs `PQfinish(conn)` unconditionally at end of life,
whatever the `opFailures` history of the operations in between. -/
def runBackendLifecycle (cfg : OpenConfig) : LifecycleResult :=
  if !cfg.hasConnInfo then ⟨0, 0, false⟩
  else if cfg.status = ConnStatus.bad then ⟨1, 0, false⟩
  else if !cfg.schemaOK then ⟨1, 0, false⟩
  else if !cfg.prepareOK then ⟨1, 0, false⟩
  else ⟨1, 1, true⟩

/-- C5 counterexample: when `PQstatus` reports the engine unreachable,
the constructor throws after `PQconnectdb` has allocated a handle and
`PQfinish` is never reached — one connection handle allocated, zero
released: this execution of the backend leaks the connection, so the
session is not released on every exit path. -/
theorem backend_leaks_on_failed_open :
    (runBackendLifecycle ⟨true, ConnStatus.bad, true, true, []⟩).connectCalls = 1 ∧
    (runBackendLifecycle ⟨true, ConnStatus.bad, true, true, []⟩).finishCalls = 0 := by
  constructor <;> rfl

/-- C5 (amended): once the backend is successfully constructed, the
session handle is released exactly once when it is destroyed, on every
such path and regardless of which later operations failed; but on the
paths where construction itself fails after the connection attempt
(engine unreachable, schema creation failure, statement preparation
failure) the allocated handle is not released. -/
theorem backend_releases_session_iff_constructed (cfg : OpenConfig)
    (h : (runBackendLifecycle cfg).constructed = true) :
    (runBackendLifecycle cfg).connectCalls = 1 ∧
    (runBackendLifecycle cfg).finishCalls = 1 := by
  rcases cfg with ⟨hc, st, sc, pr, ops⟩
  cases hc <;> cases st <;> cases sc <;> cases pr <;>
    simp_all [runBackendLifecycle]

theorem backend_releases_session_iff_constructed_witness :
    (runBackendLifecycle ⟨true, ConnStatus.ok, true, true, [true, false]⟩).constructed = true ∧
    ((runBackendLifecycle ⟨true, ConnStatus.ok, true, true, [true, false]⟩).connectCalls = 1 ∧
     (runBackendLifecycle ⟨true, ConnStatus.ok, true, true, [true, false]⟩).finishCalls = 1) :=
  ⟨by decide, backend_releases_session_iff_constructed _ (by decide)⟩

end MinetestPG

namespace MinetestPtr

/-- Reference-count accounting for one `SharedBuffer` allocation
(`data` array plus heap `refcount` word, `src/util/pointer.h`):
the current `*refcount` and how many times `delete[] data` has run. -/
structure RCState where
  refcount : Nat
  freed : Nat
deriving DecidableEq

/-- Construction of the allocation: every allocating constructor ends
with `refcount = new unsigned int; (*refcount) = 1`. -/
def newShared : RCState := ⟨1, 0⟩

/-- A new handle attaching to the allocation: the copy constructor's
`(*refcount)++`, which is also the attach half of `operator=` (after
that operator has dropped its old allocation). -/
def copySB (s : RCState) : RCState := ⟨s.refcount + 1, s.freed⟩

/-- Source `SharedBuffer::drop()`: `(*refcount)--; if (*refcount == 0)
{ delete[] data; delete refcount; }` — run by the destructor and by the
release half of `operator=`. -/
def dropSB (s : RCState) : RCState :=
  if s.refcount - 1 = 0 then ⟨0, s.freed + 1⟩ else ⟨s.refcount - 1, s.freed⟩

/-- Iterated handle attaches (`n` of them). -/
def copyN : Nat → RCState → RCState
  | 0, s => s
  | n + 1, s => copySB (copyN n s)

/-- Iterated handle drops (`n` of them). -/
def dropN : Nat → RCState → RCState
  | 0, s => s
  | n + 1, s => dropN n (dropSB s)

theorem copyN_new (n : Nat) : copyN n newShared = ⟨n + 1, 0⟩ := by
  induction n with
  | zero => rfl
  | succ n ih => simp [copyN, ih, copySB]

theorem dropN_lt (j m f : Nat) (h : j < m) : dropN j ⟨m, f⟩ = ⟨m - j, f⟩ := by
  induction j generalizing m f with
  | zero => simp [dropN]
  | succ j ih =>
    have hm : ¬ m - 1 = 0 := by omega
    rw [dropN, dropSB]
    simp only [hm, if_false]
    rw [ih (m - 1) f (by omega)]
    congr 1
    omega

theorem dropN_all (m f : Nat) (h : 1 ≤ m) : dropN m ⟨m, f⟩ = ⟨0, f + 1⟩ := by
  induction m generalizing f with
  | zero => omega
  | succ m ih =>
    rw [dropN, dropSB]
    rcases Nat.eq_zero_or_pos m with rfl | hm
    · simp [dropN]
    · have hne : ¬ m = 0 := by omega
      simp only [Nat.add_sub_cancel, hne, if_false]
      exact ih f hm

/-- C3: for an allocation carrying `M ≥ 1` live `SharedBuffer` handles
(the original plus `M - 1` copies made by copy construction or copy
assignment, each of which runs `(*refcount)++`), dropping all `M`
handles frees the underlying storage exactly once: after the first
`M - 1` drops nothing has been freed, and the `M`-th drop — the last
handle — brings the refcount to zero and frees, once. -/
theorem sharedBuffer_freed_exactly_once (M : Nat) (h : 1 ≤ M) :
    (dropN (M - 1) (copyN (M - 1) newShared)).freed = 0 ∧
    (dropN M (copyN (M - 1) newShared)).freed = 1 ∧
    (dropN M (copyN (M - 1) newShared)).refcount = 0 := by
  have hc : copyN (M - 1) newShared = ⟨M, 0⟩ := by
    rw [copyN_new]
    congr 1
    omega
  rw [hc, dropN_lt (M - 1) M 0 (by omega), dropN_all M 0 h]
  exact ⟨rfl, rfl, rfl⟩

theorem sharedBuffer_freed_exactly_once_witness :
    1 ≤ 3 ∧
    ((dropN (3 - 1) (copyN (3 - 1) newShared)).freed = 0 ∧
     (dropN 3 (copyN (3 - 1) newShared)).freed = 1 ∧
     (dropN 3 (copyN (3 - 1) newShared)).refcount = 0) :=
  ⟨by decide, sharedBuffer_freed_exactly_once 3 (by decide)⟩

/-- One byte of heap memory: `some b` after a write, `none` when still
indeterminate (fresh from `new T[...]`). -/
abbrev Cell := Option Nat

/-- The contents of one `SharedBuffer` allocation, for an element type
`T` with `sizeof(T) = w`: `m_size` elements living in `m_size * w`
bytes of `data`. -/
structure SB (w : Nat) where
  m_size : Nat
  bytes : List Cell
deriving DecidableEq

/-- Allocation `new T[n]` for `sizeof(T) = w`: `n * w` indeterminate bytes. -/
def newArr (w n : Nat) : List Cell := List.replicate (n * w) none

/-- Call `memset(dst, 0, n)`: the first `n` bytes become zero. -/
def memsetZero (dst : List Cell) (n : Nat) : List Cell :=
  (dst.take n).map (fun _ => some 0) ++ dst.drop n

/-- Call `memcpy(dst, src, n)`: the first `n` bytes of `src` replace the
first `n` bytes of `dst`. -/
def memcpyBytes (dst src : List Cell) (n : Nat) : List Cell :=
  src.take n ++ dst.drop n

/-- Source `SharedBuffer::SharedBuffer(unsigned int size)`: `data` is
`new T[m_size]` (or NULL when the size is zero), then
`memset(data, 0, sizeof(T)*m_size)`, then `(*refcount) = 1`.  Returns
the buffer value together with the initial `*refcount`. -/
def sharedBufferOfSize (w n : Nat) : SB w × Nat :=
  (⟨n, if n = 0 then [] else memsetZero (newArr w n) (n * w)⟩, 1)

/-- Source `SharedBuffer::SharedBuffer(const T *t, unsigned int size)`
(commented "Copies whole buffer"): `data = new T[m_size]` but
`memcpy(data, t, m_size)` — `m_size` BYTES, an element count where a
byte count is expected. -/
def sharedBufferOfPtr (w : Nat) (src : List Cell) (size : Nat) : SB w × Nat :=
  (⟨size, if size = 0 then [] else memcpyBytes (newArr w size) src size⟩, 1)

/-- Source `SharedBuffer::SharedBuffer(const Buffer<T> &buffer)` (commented
"Copies whole buffer"): `m_size = buffer.getSize()`,
`memcpy(data, *buffer, buffer.getSize())` — again `getSize()` bytes,
not `sizeof(T) * getSize()`. -/
def sharedBufferOfBuffer (w : Nat) (bufBytes : List Cell) (bufSize : Nat) :
    SB w × Nat :=
  (⟨bufSize, if bufSize = 0 then [] else memcpyBytes (newArr w bufSize) bufBytes bufSize⟩, 1)

/-- Source `SharedBuffer::operator[]`: `assert(i < m_size); return data[i];` —
the out-of-range result `none` models the assertion trap; in range, the
`w` bytes of element `i` are read from `data`. -/
def sbGet (w : Nat) (sb : SB w) (i : Nat) : Option (List Cell) :=
  if i < sb.m_size then some ((sb.bytes.drop (i * w)).take w) else none

/-- Specification-side view of a buffer: the list of its `m_size`
elements, each as its `w` bytes. -/
def sbElements (w : Nat) (sb : SB w) : List (List Cell) :=
  (List.range sb.m_size).map (fun i => (sb.bytes.drop (i * w)).take w)

/-- C9: `SharedBuffer` indexing is bounds-checked: `operator[]` agrees
with lookup in the element list, which has exactly `m_size` entries —
so every index `i ≥ m_size` yields `none` (the assertion trap) instead
of an out-of-range read, and every `i < m_size` yields element `i`. -/
theorem sbGet_bounds_checked (w : Nat) (sb : SB w) (i : Nat) :
    sbGet w sb i = (sbElements w sb)[i]? ∧
    (sbElements w sb).length = sb.m_size := by
  constructor
  · unfold sbGet sbElements
    by_cases h : i < sb.m_size
    · rw [if_pos h, List.getElem?_map, List.getElem?_range h]
      rfl
    · rw [if_neg h, List.getElem?_map]
      have : (List.range sb.m_size)[i]? = none := by
        rw [List.getElem?_eq_none]
        simpa using Nat.le_of_not_lt h
      rw [this]
      rfl
  · simp [sbElements]

/-- C10: constructing a `SharedBuffer` of `n` elements with the sizing
constructor zero-initialises the whole payload — the `memset` covers
the full `sizeof(T) * m_size` bytes, so every element in range reads as
`w` zero bytes — and the reference counter starts at 1. -/
theorem sharedBufferOfSize_zeroed (w n i : Nat) (h : i < n) :
    sbGet w (sharedBufferOfSize w n).1 i = some (List.replicate w (some 0)) ∧
    (sharedBufferOfSize w n).2 = 1 := by
  refine ⟨?_, rfl⟩
  have hn : ¬ n = 0 := by omega
  have hbytes : (sharedBufferOfSize w n).1.bytes = List.replicate (n * w) (some 0) := by
    simp [sharedBufferOfSize, hn, memsetZero, newArr, List.map_replicate]
  have hw : i * w + w ≤ n * w := by
    have h1 : (i + 1) * w ≤ n * w := Nat.mul_le_mul_right w (Nat.succ_le_of_lt h)
    calc i * w + w = (i + 1) * w := by ring
    _ ≤ n * w := h1
  rw [sbGet, if_pos (show i < (sharedBufferOfSize w n).1.m_size from h), hbytes]
  rw [List.drop_replicate, List.take_replicate]
  have hmin : min w (n * w - i * w) = w := by omega
  rw [hmin]

theorem sharedBufferOfSize_zeroed_witness :
    1 < 3 ∧
    (sbGet 2 (sharedBufferOfSize 2 3).1 1 = some (List.replicate 2 (some 0)) ∧
     (sharedBufferOfSize 2 3).2 = 1) :=
  ⟨by decide, sharedBufferOfSize_zeroed 2 3 1 (by decide)⟩

/-- C4: evaluation of the deep-copy constructors at an element type
with `sizeof(T) = 2` and a one-element source whose bytes are
`[0x01, 0x02]`.  `memcpy(data, t, m_size)` copies `m_size = 1` byte
instead of `sizeof(T) * m_size = 2`, so the constructed buffer's single
element reads `[1, indeterminate]` — not equal to the source element
`[1, 2]` — and the `Buffer<T>` conversion constructor passes the same
wrong count.  This contradicts the constructors' own "Copies whole
buffer" comments and the sibling `Buffer(const T*, size_t)`, which
copies `sizeof(T) * size` bytes. -/
theorem sharedBufferOfPtr_partial_copy :
    (sharedBufferOfPtr 2 [some 1, some 2] 1).1.m_size = 1 ∧
    (sharedBufferOfPtr 2 [some 1, some 2] 1).1.bytes = [some 1, none] ∧
    sbGet 2 (sharedBufferOfPtr 2 [some 1, some 2] 1).1 0 = some [some 1, none] ∧
    (sharedBufferOfBuffer 2 [some 1, some 2] 1).1.bytes = [some 1, none] ∧
    some [some 1, none] ≠ some [some (1 : Nat), some 2] := by
  refine ⟨rfl, rfl, rfl, rfl, by decide⟩

/-- Heap of array allocations: allocation id (allocation order) ↦ its
bytes.  `delete[]` is modelled by leaving the entry in place — a freed
allocation is simply never read again in the modelled scenarios. -/
abbrev Store := List (List Cell)

/-- A `Buffer<T>` object: the `data` pointer (`none` = NULL) as an
allocation id, plus `m_size`. -/
structure BufRef where
  alloc : Option Nat
  m_size : Nat
deriving DecidableEq

/-- The bytes behind a buffer's `data` pointer. -/
def readAlloc (st : Store) (b : BufRef) : List Cell :=
  match b.alloc with
  | some id => st.getD id []
  | none => []

/-- Source `Buffer(const T *t, size_t size)`: for nonzero size,
`data = new T[size]` — a fresh allocation — filled by
`memcpy(data, t, sizeof(T) * size)` (full byte count here); for zero
size, `data = NULL`. -/
def bufFromPtr (w : Nat) (st : Store) (src : List Cell) (size : Nat) :
    Store × BufRef :=
  if size = 0 then (st, ⟨none, 0⟩)
  else (st ++ [memcpyBytes (newArr w size) src (size * w)], ⟨some st.length, size⟩)

/-- Source `Buffer(const Buffer &buffer)`: delegates to
`Buffer(buffer.data, buffer.m_size)`. -/
def bufCopyCtor (w : Nat) (st : Store) (b : BufRef) : Store × BufRef :=
  bufFromPtr w st (readAlloc st b) b.m_size

/-- Source `Buffer::resize(size)`: returns unchanged when the size already
matches; otherwise `delete[]`s the old array (if any) and, for nonzero
size, allocates a fresh indeterminate array. -/
def bufResize (w : Nat) (st : Store) (b : BufRef) (size : Nat) :
    Store × BufRef :=
  if size = b.m_size then (st, b)
  else if size = 0 then (st, ⟨none, 0⟩)
  else (st ++ [newArr w size], ⟨some st.length, size⟩)

/-- Source `Buffer::operator=(const Buffer &buffer)` for distinct objects:
`resize(buffer.m_size)` followed by
`memcpy(data, buffer.data, buffer.m_size)` — `m_size` bytes, an
element count again, so the copied contents are partial for
`sizeof(T) > 1`; either way `data` stays this object's own
allocation. -/
def bufAssign (w : Nat) (st : Store) (dst src : BufRef) : Store × BufRef :=
  let r := bufResize w st dst src.m_size
  match r.2.alloc with
  | some id =>
      (r.1.set id (memcpyBytes (r.1.getD id []) (readAlloc r.1 src) src.m_size),
       r.2)
  | none => (r.1, r.2)

/-- Statement `buffer[i] = v` through the unchecked `Buffer::operator[]`:
overwrite the `w` bytes of element `i` inside the buffer's own
allocation. -/
def writeElem (w : Nat) (st : Store) (b : BufRef) (i : Nat) (v : List Cell) :
    Store :=
  match b.alloc with
  | some id =>
      st.set id ((st.getD id []).take (i * w) ++ v.take w
        ++ (st.getD id []).drop (i * w + w))
  | none => st

theorem readAlloc_set_ne (st : Store) (id : Nat) (y : List Cell) (b : BufRef)
    (sid : Nat) (hb : b.alloc = some sid) (hne : id ≠ sid) :
    readAlloc (st.set id y) b = readAlloc st b := by
  simp [readAlloc, hb, List.getD_eq_getElem?_getD, List.getElem?_set_ne hne]

theorem readAlloc_append (st : Store) (x : List Cell) (b : BufRef)
    (sid : Nat) (hb : b.alloc = some sid) (hsid : sid < st.length) :
    readAlloc (st ++ [x]) b = readAlloc st b := by
  simp [readAlloc, hb, List.getD_eq_getElem?_getD, List.getElem?_append_left hsid]

theorem writeElem_frame (w : Nat) (st : Store) (b : BufRef) (i : Nat)
    (v : List Cell) (src : BufRef) (sid : Nat)
    (hsrc : src.alloc = some sid) (hb : b.alloc ≠ some sid) :
    readAlloc (writeElem w st b i v) src = readAlloc st src := by
  obtain ⟨ba, bm⟩ := b
  cases ba with
  | none => rfl
  | some id =>
    have hne : id ≠ sid := by
      rintro rfl
      exact hb rfl
    exact readAlloc_set_ne st id _ src sid hsrc hne

theorem bufAssign_frame (w : Nat) (st : Store) (dst src b : BufRef)
    (sid : Nat) (hb : b.alloc = some sid) (hsid : sid < st.length)
    (hdst : dst.alloc ≠ some sid) :
    readAlloc (bufAssign w st dst src).1 b = readAlloc st b ∧
    (bufAssign w st dst src).2.alloc ≠ some sid := by
  obtain ⟨da, dm⟩ := dst
  unfold bufAssign bufResize
  by_cases h1 : src.m_size = dm
  · simp only [h1, if_true, if_pos rfl]
    cases da with
    | none => exact ⟨rfl, by simp⟩
    | some id =>
      have hid : id ≠ sid := by
        rintro rfl
        exact hdst rfl
      exact ⟨readAlloc_set_ne st id _ b sid hb hid, by simpa using hid⟩
  · rw [if_neg (by simpa using h1)]
    by_cases h2 : src.m_size = 0
    · rw [if_pos h2]
      exact ⟨rfl, by simp⟩
    · rw [if_neg h2]
      have hlen : st.length ≠ sid := by omega
      refine ⟨?_, by simpa using hlen⟩
      have hset := readAlloc_set_ne (st ++ [newArr w src.m_size]) st.length
        (memcpyBytes ((st ++ [newArr w src.m_size]).getD st.length [])
          (readAlloc (st ++ [newArr w src.m_size]) src) src.m_size)
        b sid hb hlen
      calc readAlloc ((st ++ [newArr w src.m_size]).set st.length
            (memcpyBytes ((st ++ [newArr w src.m_size]).getD st.length [])
              (readAlloc (st ++ [newArr w src.m_size]) src) src.m_size)) b
          = readAlloc (st ++ [newArr w src.m_size]) b := hset
        _ = readAlloc st b := readAlloc_append st _ b sid hb hsid

/-- C8: `Buffer` has deep-copy value semantics: whether a copy is made
by copy construction (always a fresh `new T[...]` allocation) or by
copy assignment (`resize` keeps or reallocates the destination's own
allocation, never the source's), writing any element of the copy
afterwards leaves the original buffer's stored bytes — hence every one
of its elements — unchanged.  `hdst` records that a distinct live
`Buffer` never aliases the source's allocation, which holds because
every `Buffer` constructor allocates fresh storage. -/
theorem buffer_value_semantics (w : Nat) (st : Store) (src dst : BufRef)
    (sid i : Nat) (v : List Cell)
    (hsrc : src.alloc = some sid) (hsid : sid < st.length)
    (hdst : dst.alloc ≠ some sid) :
    readAlloc
        (writeElem w (bufCopyCtor w st src).1 (bufCopyCtor w st src).2 i v)
        src = readAlloc st src ∧
    readAlloc
        (writeElem w (bufAssign w st dst src).1 (bufAssign w st dst src).2 i v)
        src = readAlloc st src := by
  constructor
  · unfold bufCopyCtor bufFromPtr
    by_cases hz : src.m_size = 0
    · rw [if_pos hz]
      rfl
    · rw [if_neg hz]
      have hlen : st.length ≠ sid := by omega
      have h1 := writeElem_frame w
        (st ++ [memcpyBytes (newArr w src.m_size) (readAlloc st src) (src.m_size * w)])
        ⟨some st.length, src.m_size⟩ i v src sid hsrc (by simpa using hlen)
      rw [h1]
      exact readAlloc_append st _ src sid hsrc hsid
  · obtain ⟨hkeep, halloc⟩ := bufAssign_frame w st dst src src sid hsrc hsid hdst
    rw [writeElem_frame w (bufAssign w st dst src).1 (bufAssign w st dst src).2
      i v src sid hsrc halloc]
    exact hkeep

theorem buffer_value_semantics_witness :
    ((⟨some 0, 1⟩ : BufRef).alloc = some 0 ∧ 0 < ([[some 5]] : Store).length ∧
      (⟨none, 0⟩ : BufRef).alloc ≠ some 0) ∧
    (readAlloc
        (writeElem 1 (bufCopyCtor 1 [[some 5]] ⟨some 0, 1⟩).1
          (bufCopyCtor 1 [[some 5]] ⟨some 0, 1⟩).2 0 [some 9])
        ⟨some 0, 1⟩ = readAlloc [[some 5]] ⟨some 0, 1⟩ ∧
      readAlloc
        (writeElem 1 (bufAssign 1 [[some 5]] ⟨none, 0⟩ ⟨some 0, 1⟩).1
          (bufAssign 1 [[some 5]] ⟨none, 0⟩ ⟨some 0, 1⟩).2 0 [some 9])
        ⟨some 0, 1⟩ = readAlloc [[some 5]] ⟨some 0, 1⟩) :=
  ⟨⟨by decide, by decide, by decide⟩,
   buffer_value_semantics 1 [[some 5]] ⟨some 0, 1⟩ ⟨none, 0⟩ 0 0 [some 9]
     (by decide) (by decide) (by decide)⟩

end MinetestPtr
